import Mathlib

/-!
Verification of the AI Brand Tracker repository.

This file gives a shallow embedding of the parts of the code that the
checked properties are about:

* `src/analyzer/metrics_calculator.py` — `MetricsCalculator`
  (`calculate_visibility_score`, `calculate_citation_share`,
  `determine_winner`, `determine_loser`, `calculate_brand_metrics`);
* `src/analyzer/mention_extractor.py` — `MentionExtractor.extract_batch`
  and `_parse_batch_response`;
* `src/browser_clients/base.py` — `_wait_for_response_complete` and `query`;
* `src/main.py` / `src/config.py` — `create_platform_client` and the
  `Platform` enum.

Modelling conventions:

* Python `int` is `Int`, Python `float` arithmetic is idealised as `ℚ`
  (the built-in `round(x, 1)` is modelled as round-half-to-even on the
  exact rational, `pyRound`);
* dynamically-typed JSON data decoded by `json.loads` is the inductive
  `Json`; a raised Python exception is the `Except.error` branch of an
  `Except` value;
* `sorted(xs, key=...)` is Python's stable sort; it is modelled by
  `List.insertionSort` with the decidable total preorder induced by the
  key (insertion sort as defined in Mathlib is stable, hence extensionally
  the same function on every input).
-/

namespace BrandTracker

/-! ## Dynamic (JSON) values and Python primitives -/

/-- A value produced by `json.loads`: JSON null, booleans, integers,
strings, arrays and objects.  (Number values relevant to the code are the
integer counts and ranks, so numbers are modelled as integers.) -/
inductive Json where
  | null : Json
  | bool (b : Bool) : Json
  | num (n : Int) : Json
  | str (s : String) : Json
  | arr (items : List Json) : Json
  | obj (fields : List (String × Json)) : Json
deriving Repr

/-- The Python comparison `j == s` between a decoded JSON value and a
string: true exactly when `j` is that string (used for membership of a
prompt id in the `processed_ids` set). -/
def Json.isStr (j : Json) (s : String) : Bool :=
  match j with
  | .str t => t = s
  | _ => false

/-- Python exceptions distinguished by the code under verification. -/
inductive PyExn where
  | attributeError : PyExn
  | typeError : PyExn
deriving DecidableEq, Repr

/-- Dictionary lookup `d[k]` on a JSON object (`None`-free variant used
through `.get`): first binding of the key, if any. -/
def jGet (j : Json) (key : String) : Option Json :=
  match j with
  | .obj fields => fields.lookup key
  | _ => none

/-- Python `d.get(key, default)` on a decoded JSON object. -/
def jGetD (j : Json) (key : String) (d : Json) : Json :=
  (jGet j key).getD d

/-- A decoded JSON value read where Python will later use it as an `int`.
Python stores the raw value in the dataclass field; booleans are ints
(`True == 1`), and non-numeric garbage (which would make any later
arithmetic raise) is modelled as `0`. -/
def pyInt (j : Json) : Int :=
  match j with
  | .num n => n
  | .bool true => 1
  | .bool false => 0
  | _ => 0

/-- Python truthiness of a decoded JSON value. -/
def pyTruthy (j : Json) : Bool :=
  match j with
  | .null => false
  | .bool b => b
  | .num n => n != 0
  | .str s => s ≠ ""
  | .arr items => ¬ items.isEmpty
  | .obj fields => ¬ fields.isEmpty

/-- Python `s.lower()` (ASCII, which is what `Char.toLower` performs and
what the tracked brand names use).  Written as a structural map over the
character list — `String.toLower` itself recurses on byte positions, which
the kernel cannot unfold when evaluating concrete instances. -/
def pyLower (s : String) : String := ⟨s.data.map Char.toLower⟩

/-- Python `s[:n]` on a string, in structural form. -/
def pyTake (s : String) (n : Nat) : String := ⟨s.data.take n⟩

/-- Does the character list start with the given pattern? -/
def charsStartWith : List Char → List Char → Bool
  | _, [] => true
  | [], _ :: _ => false
  | c :: cs, d :: ds => c = d && charsStartWith cs ds

/-- Substring containment on character lists (Python `pattern in s`). -/
def charsContain : List Char → List Char → Bool
  | [], needle => needle.isEmpty
  | c :: cs, needle => charsStartWith (c :: cs) needle || charsContain cs needle

/-- Python `needle in hay` on strings. -/
def pyContains (hay needle : String) : Bool :=
  charsContain hay.data needle.data

instance {ε α : Type} [DecidableEq ε] [DecidableEq α] :
    DecidableEq (Except ε α) := fun a b =>
  match a, b with
  | .ok x, .ok y =>
    if h : x = y then isTrue (by rw [h]) else isFalse (by simp [h])
  | .error x, .error y =>
    if h : x = y then isTrue (by rw [h]) else isFalse (by simp [h])
  | .ok _, .error _ => isFalse (by simp)
  | .error _, .ok _ => isFalse (by simp)

/-- Python slicing `x[:n]` where the code expects a string
(`item.get("context", "")[:200]`): slicing a non-sliceable value raises
`TypeError`; slicing a JSON array is legal Python but stores a list in a
string-typed field, which no verified property touches — modelled as `""`. -/
def pySliceStr (j : Json) (n : Nat) : Except PyExn String :=
  match j with
  | .str s => .ok (pyTake s n)
  | .arr _ => .ok ""
  | _ => .error .typeError

/-- Python iteration `for x in v` over a decoded JSON value: arrays yield
their items, strings yield their characters (as 1-character strings),
dicts yield their keys; other values raise `TypeError`. -/
def pyIter (j : Json) : Except PyExn (List Json) :=
  match j with
  | .arr items => .ok items
  | .str s => .ok (s.toList.map (fun c => Json.str (String.singleton c)))
  | .obj fields => .ok (fields.map (fun kv => Json.str kv.1))
  | _ => .error .typeError

/-! ## Data model (`src/config.py`) -/

/-- `config.BrandMention` (dataclass). -/
structure BrandMention where
  brand : String
  count : Int
  rank : Int
  context : String
  is_recommended : Bool
deriving DecidableEq, Repr

/-- `config.PromptResult` (dataclass), the fields used by the analyzer. -/
structure PromptResult where
  prompt_id : String
  prompt_text : String
  platform : String
  platform_model : String
  raw_response : String
  mentions : List BrandMention
  citations : List String
  prompt_winner : Option String
  prompt_loser : Option String
  your_brand_mentioned : Bool
  your_brand_rank : Option Int
  competitors_mentioned : List String
  competitors_missed : List String
deriving DecidableEq, Repr

/-- Helper to build a `PromptResult` from the fields `calculate_brand_metrics`
reads, with the remaining fields defaulted. -/
def mkResult (platform : String) (mentions : List BrandMention)
    (winner loser : Option String) : PromptResult :=
  { prompt_id := "", prompt_text := "", platform := platform,
    platform_model := "", raw_response := "", mentions := mentions,
    citations := [], prompt_winner := winner, prompt_loser := loser,
    your_brand_mentioned := false, your_brand_rank := none,
    competitors_mentioned := [], competitors_missed := [] }

/-! ## Rounding (Python `round(x, 1)`) -/

/-- Python's built-in `round` to an integer: round half to even
(idealised on the exact rational value). -/
def pyRound (q : ℚ) : ℤ :=
  if q - ⌊q⌋ < 1/2 then ⌊q⌋
  else if 1/2 < q - ⌊q⌋ then ⌊q⌋ + 1
  else if ⌊q⌋ % 2 = 0 then ⌊q⌋ else ⌊q⌋ + 1

/-- Python `round(x, 1)`: one decimal digit. -/
def round1 (q : ℚ) : ℚ := (pyRound (q * 10) : ℚ) / 10

/-! ## `MetricsCalculator` (`src/analyzer/metrics_calculator.py`) -/

/-- `MetricsCalculator.calculate_visibility_score`. -/
def calculate_visibility_score (prompts_with_mention total_prompts : ℕ) : ℚ :=
  if total_prompts = 0 then 0
  else round1 (((prompts_with_mention : ℚ) / (total_prompts : ℚ)) * 100)

/-- `MetricsCalculator.calculate_citation_share`. -/
def calculate_citation_share (brand_mentions total_mentions : ℤ) : ℚ :=
  if total_mentions = 0 then 0
  else round1 (((brand_mentions : ℚ) / (total_mentions : ℚ)) * 100)

/-- The total preorder induced by the sort key `(-m.count, m.rank)` of
`determine_winner`. -/
def winnerLE (m1 m2 : BrandMention) : Prop :=
  m2.count < m1.count ∨ (m1.count = m2.count ∧ m1.rank ≤ m2.rank)

instance : DecidableRel winnerLE := fun m1 m2 => by
  unfold winnerLE; infer_instance

instance : IsTotal BrandMention winnerLE :=
  ⟨fun m1 m2 => by unfold winnerLE; omega⟩

instance : IsTrans BrandMention winnerLE :=
  ⟨fun m1 m2 m3 h12 h23 => by unfold winnerLE at *; omega⟩

/-- The total preorder induced by the sort key `(m.count, -m.rank)` of
`determine_loser`. -/
def loserLE (m1 m2 : BrandMention) : Prop :=
  m1.count < m2.count ∨ (m1.count = m2.count ∧ m2.rank ≤ m1.rank)

instance : DecidableRel loserLE := fun m1 m2 => by
  unfold loserLE; infer_instance

instance : IsTotal BrandMention loserLE :=
  ⟨fun m1 m2 => by unfold loserLE; omega⟩

instance : IsTrans BrandMention loserLE :=
  ⟨fun m1 m2 m3 h12 h23 => by unfold loserLE at *; omega⟩

/-- `MetricsCalculator.determine_winner`. -/
def determine_winner (mentions : List BrandMention) : Option String :=
  if mentions = [] then none
  else
    match List.insertionSort winnerLE mentions with
    | [] => none
    | top :: rest =>
      match rest with
      | next :: _ =>
        if next.count = top.count then
          if next.rank < top.rank then some next.brand
          else if next.rank = top.rank then none
          else some top.brand
        else some top.brand
      | [] => some top.brand

/-- `MetricsCalculator.determine_loser`.  (The `[]` case of the inner match
is unreachable: the sorted list of a list of length ≥ 2 is non-empty.) -/
def determine_loser (mentions : List BrandMention) : Option String :=
  if mentions.length < 2 then none
  else
    match List.insertionSort loserLE mentions with
    | [] => none
    | m :: _ => some m.brand

/-- Pointwise update of a total map modelling a Python dict whose absent
keys the code initialises to `0` before first use. -/
def updMap {β : Type} (f : String → β) (k : String) (v : β) : String → β :=
  fun x => if x = k then v else f x

/-- Sum of the `count` fields of a list of mentions. -/
def sumCounts (mentions : List BrandMention) : Int :=
  (mentions.map (fun m => m.count)).sum

/-- The loop state of `MetricsCalculator.calculate_brand_metrics`:
the scalar counters of the `BrandMetrics` being built together with the
local accumulators (`total_all_mentions`, `brand_total_mentions`, the
per-platform dicts and the collected contexts). -/
structure CalcState where
  totalPrompts : Nat
  withMention : Nat
  missed : Nat
  won : Nat
  lost : Nat
  tied : Nat
  totalMentions : Int
  brandTotal : Int
  totalAll : Int
  platforms : List String
  promptsBy : String → Nat
  mentionsBy : String → Int
  withMentionBy : String → Nat
  contexts : List String

/-- The initial loop state (all counters zero, all dicts empty). -/
def initCalcState : CalcState :=
  { totalPrompts := 0, withMention := 0, missed := 0, won := 0, lost := 0,
    tied := 0, totalMentions := 0, brandTotal := 0, totalAll := 0,
    platforms := [], promptsBy := fun _ => 0, mentionsBy := fun _ => 0,
    withMentionBy := fun _ => 0, contexts := [] }

/-- The first mention of `brand` in a result, matched case-insensitively:
`next((m for m in result.mentions if m.brand.lower() == brand.lower()), None)`. -/
def findBrandMention (brand : String) (r : PromptResult) : Option BrandMention :=
  r.mentions.find? (fun m => pyLower m.brand = pyLower brand)

/-- One iteration of the `for result in prompt_results` loop of
`calculate_brand_metrics`. -/
def brandMetricsStep (brand : String) (s : CalcState) (r : PromptResult) : CalcState :=
  let p := r.platform
  let bm := findBrandMention brand r
  let s1 : CalcState :=
    { s with
      platforms := if p ∈ s.platforms then s.platforms else s.platforms ++ [p],
      promptsBy := updMap s.promptsBy p (s.promptsBy p + 1),
      totalPrompts := s.totalPrompts + 1,
      totalAll := s.totalAll + sumCounts r.mentions }
  let s2 : CalcState :=
    match bm with
    | some m =>
      { s1 with
        withMention := s1.withMention + 1,
        withMentionBy := updMap s1.withMentionBy p (s1.withMentionBy p + 1),
        brandTotal := s1.brandTotal + m.count,
        totalMentions := s1.totalMentions + m.count,
        mentionsBy := updMap s1.mentionsBy p (s1.mentionsBy p + m.count),
        contexts := if m.context ≠ "" then s1.contexts ++ [m.context] else s1.contexts }
    | none => { s1 with missed := s1.missed + 1 }
  match r.prompt_winner with
  | some w =>
    if w = "" then s2          -- `if result.prompt_winner:` — "" is falsy
    else if pyLower w = pyLower brand then { s2 with won := s2.won + 1 }
    else
      match bm with
      | some _ =>
        match r.prompt_loser with
        | some l =>
          if l ≠ "" ∧ pyLower l = pyLower brand then { s2 with lost := s2.lost + 1 }
          else { s2 with tied := s2.tied + 1 }
        | none => { s2 with tied := s2.tied + 1 }
      | none => s2
  | none => s2

/-- `sum(m.count for r in prompt_results if r.platform == platform
for m in r.mentions)` — the per-platform denominator of the platform
citation share. -/
def platformTotalMentions (prompt_results : List PromptResult) (platform : String) : Int :=
  ((prompt_results.filter (fun r => r.platform = platform)).map
    (fun r => sumCounts r.mentions)).sum

/-- The "top unique contexts" loop: dedup on the lowercased first 50
characters, stop at 5. -/
def topContextsAux : List String → List String → List String → List String
  | [], _, out => out
  | c :: rest, seen, out =>
    let key := pyTake (pyLower c) 50
    if key ∈ seen then topContextsAux rest seen out
    else
      let out2 := out ++ [c]
      if 5 ≤ out2.length then out2
      else topContextsAux rest (key :: seen) out2

/-- One entry of `metrics.platform_breakdown`. -/
structure PlatformStats where
  visibilityScore : ℚ
  citationShare : ℚ
  mentions : Int
  promptsWithMention : Nat
deriving Repr

/-- `metrics_calculator.BrandMetrics` (dataclass); `platform_breakdown` is
kept as an ordered association list, mirroring dict insertion order. -/
structure BrandMetrics where
  brand : String
  visibility_score : ℚ
  citation_share : ℚ
  total_mentions : Int
  total_prompts_analyzed : Nat
  prompts_with_mention : Nat
  prompts_missed : Nat
  prompts_won : Nat
  prompts_lost : Nat
  prompts_tied : Nat
  platform_breakdown : List (String × PlatformStats)
  top_contexts : List String
deriving Repr

/-- `MetricsCalculator.calculate_brand_metrics`.  (The `all_brands`
parameter is accepted but, as in the source, never read.) -/
def calculate_brand_metrics (brand : String) (prompt_results : List PromptResult)
    (all_brands : List String) : BrandMetrics :=
  let _ := all_brands
  let s := prompt_results.foldl (brandMetricsStep brand) initCalcState
  { brand := brand,
    visibility_score := calculate_visibility_score s.withMention s.totalPrompts,
    citation_share := calculate_citation_share s.brandTotal s.totalAll,
    total_mentions := s.totalMentions,
    total_prompts_analyzed := s.totalPrompts,
    prompts_with_mention := s.withMention,
    prompts_missed := s.missed,
    prompts_won := s.won,
    prompts_lost := s.lost,
    prompts_tied := s.tied,
    platform_breakdown := s.platforms.map (fun p =>
      (p, { visibilityScore := calculate_visibility_score (s.withMentionBy p) (s.promptsBy p),
            citationShare := calculate_citation_share (s.mentionsBy p)
              (platformTotalMentions prompt_results p),
            mentions := s.mentionsBy p,
            promptsWithMention := s.withMentionBy p })),
    top_contexts := topContextsAux s.contexts [] [] }

/-- The `citationShare` entry of `platform_breakdown` for a platform
(`0` when the platform does not appear in the breakdown). -/
def platformCitationShare (m : BrandMetrics) (platform : String) : ℚ :=
  match m.platform_breakdown.lookup platform with
  | some st => st.citationShare
  | none => 0

/-! ## `MentionExtractor` (`src/analyzer/mention_extractor.py`) -/

/-- `mention_extractor.ExtractionResult` (dataclass).  The `promptId`
taken from the model's JSON output is stored as-is, so the field holds a
dynamically-typed value. -/
structure ExtractionResult where
  promptId : Json
  mentions : List BrandMention
  citations : List String
deriving Repr

/-- An `ExtractionResult` with the given prompt id and no mentions or
citations — the synthesized fallback record. -/
def emptyResult (pid : String) : ExtractionResult :=
  { promptId := Json.str pid, mentions := [], citations := [] }

/-- `next((b for b in valid_brands if b.lower() == brand.lower()), None)`.
When `valid_brands` is non-empty the generator evaluates
`brand.lower()`, which raises `AttributeError` on a non-string. -/
def matchBrand (valid_brands : List String) (brandJ : Json) :
    Except PyExn (Option String) :=
  match valid_brands with
  | [] => .ok none
  | _ =>
    match brandJ with
    | .str s => .ok (valid_brands.find? (fun b => pyLower b = pyLower s))
    | _ => .error .attributeError

/-- The `for item in mentions_data` loop of `_parse_batch_response`,
accumulating the `mentions` list (the accumulator is live: the default
rank of an item is `len(mentions) + 1` at the time it is processed). -/
def parseMentionsAux (valid_brands : List String) :
    List Json → List BrandMention → Except PyExn (List BrandMention)
  | [], acc => .ok acc
  | item :: rest, acc =>
    match item with
    | .obj _ =>
      match matchBrand valid_brands (jGetD item "brand" (Json.str "")) with
      | .error e => .error e
      | .ok (some b) =>
        let count : Int :=
          match jGet item "count" with
          | some v => pyInt v
          | none => 1
        let rank : Int :=
          match jGet item "rank" with
          | some v => pyInt v
          | none => (acc.length : Int) + 1
        match pySliceStr (jGetD item "context" (Json.str "")) 200 with
        | .error e => .error e
        | .ok context =>
          let isRec := pyTruthy (jGetD item "isRecommended" (Json.bool false))
          parseMentionsAux valid_brands rest
            (acc ++ [{ brand := b, count := count, rank := rank,
                       context := context, is_recommended := isRec }])
      | .ok none => parseMentionsAux valid_brands rest acc
    | _ => parseMentionsAux valid_brands rest acc

/-- The citations list of one analysis:
`[str(url) for url in citations_data if url and isinstance(url, str)]`
guarded by `isinstance(citations_data, list)`. -/
def parseCitations (analysis : Json) : List String :=
  match jGetD analysis "citations" (Json.arr []) with
  | .arr items =>
    items.filterMap (fun j =>
      match j with
      | .str s => if s = "" then none else some s
      | _ => none)
  | _ => []

/-- The body of the `for analysis in analyses` loop for one dict analysis:
build the `ExtractionResult` appended by `_parse_batch_response`. -/
def parseAnalysis (valid_brands : List String) (analysis : Json) :
    Except PyExn ExtractionResult :=
  match (match jGetD analysis "mentions" (Json.arr []) with
         | .arr items => parseMentionsAux valid_brands items []
         | _ => .ok []) with
  | .error e => .error e
  | .ok mentions =>
    .ok { promptId := jGetD analysis "promptId" (Json.str ""),
          mentions := mentions,
          citations := parseCitations analysis }

/-- The `for analysis in analyses` loop: one result per dict item,
non-dict items skipped (`if not isinstance(analysis, dict): continue`). -/
def parseAnalyses (valid_brands : List String) :
    List Json → Except PyExn (List ExtractionResult)
  | [] => .ok []
  | a :: rest =>
    match a with
    | .obj _ =>
      match parseAnalysis valid_brands a with
      | .error e => .error e
      | .ok r =>
        match parseAnalyses valid_brands rest with
        | .error e => .error e
        | .ok rs => .ok (r :: rs)
    | _ => parseAnalyses valid_brands rest

/-- The `processed_ids` set after the loop: the `promptId` value of every
dict analysis. -/
def processedIds (analyses : List Json) : List Json :=
  analyses.filterMap (fun a =>
    match a with
    | .obj _ => some (jGetD a "promptId" (Json.str ""))
    | _ => none)

/-- `MentionExtractor._parse_batch_response`, taken after the
`re.search`/`json.loads` stage: `content = none` is a `json.JSONDecodeError`
(caught: one empty result per response), `content = some data` is the
decoded value.  `data.get` on a non-dict raises `AttributeError`, iterating
a non-iterable `analyses` value raises `TypeError`; both escape to the
caller.  The `response_map` built by the source is never read and is
omitted. -/
def parse_batch_response (content : Option Json) (valid_brands : List String)
    (original_ids : List String) : Except PyExn (List ExtractionResult) :=
  match content with
  | none => .ok (original_ids.map emptyResult)
  | some data =>
    match data with
    | .obj _ =>
      match pyIter (jGetD data "analyses" (Json.arr [])) with
      | .error e => .error e
      | .ok items =>
        match parseAnalyses valid_brands items with
        | .error e => .error e
        | .ok rs =>
          .ok (rs ++ (original_ids.filter
            (fun pid => ¬ (processedIds items).any (fun j => j.isStr pid))).map
              emptyResult)
    | _ => .error .attributeError

/-- `MentionExtractor.extract_batch`.  The interaction with the completion
service is summarised by its observable outcome: `.error _` when the call
(or the parse) raised, `.ok none` when the returned text failed JSON
decoding, `.ok (some data)` when it decoded to `data`.  Every exception is
caught and turned into one empty result per response. -/
def extract_batch (original_ids : List String) (brands : List String)
    (service : Except PyExn (Option Json)) : List ExtractionResult :=
  if original_ids.isEmpty || brands.isEmpty then []
  else
    match (match service with
           | .error e => .error e
           | .ok content => parse_batch_response content brands original_ids :
           Except PyExn (List ExtractionResult)) with
    | .ok rs => rs
    | .error _ => original_ids.map emptyResult

/-- How many of the returned results carry the given input prompt id. -/
def pidCount (rs : List ExtractionResult) (pid : String) : Nat :=
  rs.countP (fun r => r.promptId.isStr pid)

/-! ## Browser client (`src/browser_clients/base.py`) -/

/-- `browser_clients.base.BrowserQueryResult` (dataclass). -/
structure BrowserQueryResult where
  platform : String
  prompt : String
  response : String
  success : Bool
  error : Option String
deriving DecidableEq, Repr

/-- Exceptions that can escape the inner query attempt, carrying the
message `str(error)` used by `sanitize_error_message`. -/
inductive BrowserExn where
  | browserClientError (msg : String) : BrowserExn
  | timeoutError (msg : String) : BrowserExn
deriving DecidableEq, Repr

/-- `str(error)` of a raised exception. -/
def BrowserExn.message : BrowserExn → String
  | .browserClientError m => m
  | .timeoutError m => m

/-- The substring patterns scrubbed by `utils.security.sanitize_error_message`. -/
def sensitivePatterns : List String :=
  ["api_key", "sk-ant", "anthropic", "token", "secret", "password"]

/-- `utils.security.sanitize_error_message` (default `max_length=200`). -/
def sanitize_error_message (e : BrowserExn) : String :=
  let m := pyTake e.message 200
  if sensitivePatterns.any (fun p => pyContains (pyLower m) p)
  then "Internal error occurred"
  else m

/-- `required_stable` of `_wait_for_response_complete`. -/
def required_stable : Nat := 4

/-- One poll of the text-stability loop: state is `(last_content,
stable_count)`; the counter advances only when the newly read text is
truthy (non-empty), equal to the previous read, and longer than 10
characters; otherwise the counter resets to 0 and `last_content` is
updated. -/
def stabilityStep (last : String) (stable : Nat) (current : String) :
    String × Nat :=
  if current ≠ "" ∧ current = last ∧ 10 < current.length
  then (last, stable + 1)
  else (current, 0)

/-- `BaseBrowserClient._wait_for_response_complete`, as a function of the
sequence of successfully polled response texts (a poll whose read raised
is skipped by the `except: continue`, and the finite list length models
the `int(timeout_seconds / check_interval)` iteration bound).  Returns
`true` iff the loop returns `True` (text judged stable), `false` on
timeout. -/
def wait_for_response_complete : List String → String → Nat → Bool
  | [], _, _ => false
  | c :: rest, last, stable =>
    let s := stabilityStep last stable c
    if required_stable ≤ s.2 then true
    else wait_for_response_complete rest s.1 s.2

/-- The polled sequence of the stability example. -/
def demoPolls : List String :=
  ["", "", "partial", "partial", "partial and more", "partial and more",
   "partial and more"]

/-- The environment one attempt of `query` runs against: the observable
outcomes of the awaited page interactions. -/
structure QueryEnv where
  waitSelector : Except BrowserExn Unit  -- `page.wait_for_selector` outcome
  textboxFound : Bool                    -- `query_selector` returned a node
  newMessageAppeared : Bool              -- `_wait_for_new_message` result
  stabilityResult : Bool                 -- `_wait_for_response_complete` result
  finalRead : Except BrowserExn String   -- final `_get_response_text`

/-- The inner `_query_impl` coroutine of `BaseBrowserClient.query`. -/
def queryImpl (platform_name prompt : String) (env : QueryEnv) :
    Except BrowserExn BrowserQueryResult :=
  match env.waitSelector with
  | .error e => .error e
  | .ok _ =>
    if ¬ env.textboxFound then
      .error (.browserClientError ("Could not find " ++ platform_name ++ " textbox"))
    else if ¬ env.newMessageAppeared then
      .ok { platform := platform_name, prompt := prompt, response := "",
            success := false,
            error := some ("No new response received from " ++ platform_name ++
              " (count did not increase)") }
    else
      -- `await self._wait_for_response_complete(timeout_seconds=90)`:
      -- the boolean it returns is discarded
      let _ := env.stabilityResult
      match env.finalRead with
      | .error e => .error e
      | .ok response_text =>
        if response_text = "" then
          .ok { platform := platform_name, prompt := prompt, response := "",
                success := false,
                error := some ("Empty response received from " ++ platform_name) }
        else
          .ok { platform := platform_name, prompt := prompt,
                response := response_text, success := true, error := none }

/-- `BaseBrowserClient._execute_with_retry` with `max_retries = 1`: run the
operation; on an exception run it once more, and let a second exception
propagate.  The two attempts may observe different environments. -/
def executeWithRetry {ρ : Type} (op : QueryEnv → Except BrowserExn ρ)
    (env0 env1 : QueryEnv) : Except BrowserExn ρ :=
  match op env0 with
  | .ok r => .ok r
  | .error _ => op env1

/-- `BaseBrowserClient.query`: the retried inner attempt, with any escaping
exception converted to a failed `BrowserQueryResult` carrying the sanitized
message.  (`prompt[:200] if prompt else ""` equals `prompt.take 200` also
when the prompt is empty.) -/
def query (platform_name prompt : String) (env0 env1 : QueryEnv) :
    BrowserQueryResult :=
  match executeWithRetry (queryImpl platform_name prompt) env0 env1 with
  | .ok r => r
  | .error e =>
    { platform := platform_name, prompt := pyTake prompt 200, response := "",
      success := false, error := some (sanitize_error_message e) }

/-! ## `create_platform_client` (`src/main.py`, `src/config.py`) -/

/-- `config.Platform`: the members of the enum. -/
inductive Platform where
  | chatgpt : Platform
  | gemini : Platform
  | perplexity : Platform
deriving DecidableEq, Repr

/-- Attribute lookup `Platform.<name>` on the enum class: only the three
member names exist; any other attribute access raises `AttributeError`. -/
def platformMember (name : String) : Option Platform :=
  if name = "CHATGPT" then some .chatgpt
  else if name = "GEMINI" then some .gemini
  else if name = "PERPLEXITY" then some .perplexity
  else none

/-- The client classes `create_platform_client` can instantiate. -/
inductive PlatformClient where
  | openaiClient : PlatformClient
  | anthropicClient : PlatformClient
  | googleClient : PlatformClient
deriving DecidableEq, Repr

/-- `main.create_platform_client`.  Python evaluates `Platform.CLAUDE` only
when the first `elif` is reached, i.e. whenever `platform != Platform.CHATGPT`;
the attribute access is modelled through `platformMember`. -/
def create_platform_client (platform : Platform) :
    Except PyExn (Option PlatformClient) :=
  if platform = .chatgpt then .ok (some .openaiClient)
  else
    match platformMember "CLAUDE" with
    | none => .error .attributeError
    | some claude =>
      if platform = claude then .ok (some .anthropicClient)
      else if platform = .gemini then .ok (some .googleClient)
      else .ok none

/-! ## Theorems -/

/-- C6: for all non-negative integers, `calculate_visibility_score` returns
`round(100 * promptsWithMention / totalPrompts, 1)` and returns exactly `0`
when `totalPrompts = 0` — the division is never reached in that case. -/
theorem visibility_score_formula (p t : ℕ) :
    (t = 0 → calculate_visibility_score p t = 0) ∧
    (t ≠ 0 → calculate_visibility_score p t = round1 (100 * p / t)) := by
  constructor
  · intro h
    simp [calculate_visibility_score, h]
  · intro h
    have harg : ((p : ℚ) / (t : ℚ)) * 100 = 100 * p / t := by ring
    simp [calculate_visibility_score, h, harg]

/-- Witness for `visibility_score_formula` at concrete inputs. -/
theorem visibility_score_formula_witness :
    calculate_visibility_score 3 0 = 0 ∧
    calculate_visibility_score 1 2 = round1 (100 * 1 / 2) :=
  ⟨(visibility_score_formula 3 0).1 rfl,
   (visibility_score_formula 1 2).2 (by decide)⟩

/-- C10: the `Platform` enum has no `CLAUDE` member, so for every platform
other than `CHATGPT` (i.e. exactly `GEMINI` and `PERPLEXITY`)
`create_platform_client` evaluates `Platform.CLAUDE` and raises
`AttributeError` instead of returning a client or `None`. -/
theorem create_platform_client_raises (p : Platform) (h : p ≠ .chatgpt) :
    create_platform_client p = .error .attributeError ∧
    (p = .gemini ∨ p = .perplexity) ∧
    platformMember "CLAUDE" = none := by
  cases p with
  | chatgpt => exact absurd rfl h
  | gemini => exact ⟨by decide, by decide, by decide⟩
  | perplexity => exact ⟨by decide, by decide, by decide⟩

/-- Witness for `create_platform_client_raises` at `Platform.GEMINI`. -/
theorem create_platform_client_raises_witness :
    create_platform_client .gemini = .error .attributeError ∧
    (Platform.gemini = .gemini ∨ Platform.gemini = .perplexity) ∧
    platformMember "CLAUDE" = none :=
  create_platform_client_raises .gemini (by decide)

/-- If the stability loop reports completion then either the initial
`last_content` itself was non-empty, long, and repeated by the first
`required_stable - stable` polls, or some non-empty text longer than 10
characters was observed by `required_stable` consecutive polls. -/
theorem wait_run_aux (polls : List String) :
    ∀ last stable, wait_for_response_complete polls last stable = true →
      (last ≠ "" ∧ 10 < last.length ∧
        List.replicate (required_stable - stable) last <+: polls) ∨
      (∃ x, x ≠ "" ∧ 10 < x.length ∧
        List.replicate required_stable x <:+: polls) := by
  induction polls with
  | nil =>
    intro last stable h
    simp [wait_for_response_complete] at h
  | cons c rest ih =>
    intro last stable h
    rw [wait_for_response_complete] at h
    have hs : stabilityStep last stable c =
        if c ≠ "" ∧ c = last ∧ 10 < c.length then (last, stable + 1)
        else (c, 0) := rfl
    by_cases hc : c ≠ "" ∧ c = last ∧ 10 < c.length
    · rw [hs, if_pos hc] at h
      simp only at h
      by_cases hreq : required_stable ≤ stable + 1
      · left
        obtain ⟨hne, hceq, hlen⟩ := hc
        refine ⟨hceq ▸ hne, hceq ▸ hlen, ?_⟩
        have h01 : required_stable - stable = 0 ∨ required_stable - stable = 1 := by
          unfold required_stable at *
          omega
        rcases h01 with h0 | h1
        · rw [h0]
          simp
        · rw [h1]
          exact ⟨rest, by rw [List.replicate_one, hceq]; rfl⟩
      · rw [if_neg (by simpa using hreq)] at h
        rcases ih last (stable + 1) h with ⟨hne, hlen, t, ht⟩ | ⟨x, hx⟩
        · left
          refine ⟨hne, hlen, ?_⟩
          have hsucc : required_stable - stable = (required_stable - (stable + 1)) + 1 := by
            unfold required_stable at *
            omega
          rw [hsucc, List.replicate_succ]
          exact ⟨t, by rw [List.cons_append, ht, hc.2.1]⟩
        · right
          obtain ⟨hne2, hlen2, sfx, t2, ht2⟩ := hx
          exact ⟨x, hne2, hlen2, c :: sfx, t2, by rw [← ht2]; rfl⟩
    · rw [hs, if_neg hc] at h
      simp only at h
      rw [if_neg (by unfold required_stable; omega)] at h
      rcases ih c 0 h with ⟨hne, hlen, t, ht⟩ | ⟨x, hne, hlen, sfx, t, ht⟩
      · right
        refine ⟨c, hne, hlen, [c], t, ?_⟩
        rw [Nat.sub_zero] at ht
        simp [← ht]
      · right
        exact ⟨x, hne, hlen, c :: sfx, t, by rw [← ht]; rfl⟩

/-- C3: the stability wait requires `required_stable = 4 > 2` consecutive
unchanged polls; a changed poll always resets the counter to zero;
completion starting from the initial state implies some text longer than
10 characters was observed unchanged on `required_stable` consecutive
polls; on the polled sequence `"" , "" , "partial" , "partial" ,
"partial and more" ×3` it does not signal completion (in particular not on
the early `"partial"` plateau), while two further identical polls of the
final value do complete. -/
theorem wait_for_complete_stability :
    2 < required_stable ∧
    (∀ last stable current, current ≠ last →
      (stabilityStep last stable current).2 = 0) ∧
    (∀ polls, wait_for_response_complete polls "" 0 = true →
      ∃ x, x ≠ "" ∧ 10 < x.length ∧
        List.replicate required_stable x <:+: polls) ∧
    wait_for_response_complete demoPolls "" 0 = false ∧
    wait_for_response_complete
      (demoPolls ++ ["partial and more", "partial and more"]) "" 0 = true := by
  refine ⟨by decide, ?_, ?_, by decide, by decide⟩
  · intro last stable current hne
    simp [stabilityStep, fun h : current = last => hne h]
  · intro polls h
    rcases wait_run_aux polls "" 0 h with ⟨hne, _⟩ | hrun
    · exact absurd rfl hne
    · exact hrun

/-- Witness for `wait_for_complete_stability`: a changed poll resets the
counter, and five identical long polls reach completion. -/
theorem wait_for_complete_stability_witness :
    (stabilityStep "previous text" 3 "changed text").2 = 0 ∧
    (∃ x, x ≠ "" ∧ 10 < x.length ∧
      List.replicate required_stable x <:+:
        List.replicate 5 "stable final answer") :=
  ⟨wait_for_complete_stability.2.1 "previous text" 3 "changed text" (by decide),
   wait_for_complete_stability.2.2.1 (List.replicate 5 "stable final answer")
     (by decide)⟩

/-- C4: the result of the stability wait is ignored by `query` (conjunct 1);
whenever the final read returns text, the attempt ends without raising, as
a degraded success if the text is non-empty and as a failure with an error
message if it is empty (conjunct 2); a successful first attempt is returned
as-is (conjunct 3); and every exception escaping the retried inner attempt
is converted into a `success = false` result rather than propagating
(conjunct 4). -/
theorem query_timeout_recoverable :
    (∀ (name prompt : String) (env : QueryEnv) (b b' : Bool),
      queryImpl name prompt { env with stabilityResult := b } =
      queryImpl name prompt { env with stabilityResult := b' }) ∧
    (∀ (name prompt : String) (env : QueryEnv) (t : String),
      env.waitSelector = .ok () →
      env.textboxFound = true → env.newMessageAppeared = true →
      env.finalRead = .ok t →
      queryImpl name prompt env =
        .ok (if t = "" then
          { platform := name, prompt := prompt, response := "",
            success := false,
            error := some ("Empty response received from " ++ name) }
        else
          { platform := name, prompt := prompt, response := t,
            success := true, error := none })) ∧
    (∀ name prompt env0 env1 r, queryImpl name prompt env0 = .ok r →
      query name prompt env0 env1 = r) ∧
    (∀ name prompt env0 env1 e,
      executeWithRetry (queryImpl name prompt) env0 env1 = .error e →
      query name prompt env0 env1 =
        { platform := name, prompt := pyTake prompt 200, response := "",
          success := false, error := some (sanitize_error_message e) }) := by
  refine ⟨?_, ?_, ?_, ?_⟩
  · intro name prompt env b b'
    cases env
    rfl
  · intro name prompt env t hsel hbox hmsg hread
    by_cases ht : t = "" <;>
      simp [queryImpl, hsel, hbox, hmsg, hread, ht]
  · intro name prompt env0 env1 r h
    simp [query, executeWithRetry, h]
  · intro name prompt env0 env1 e h
    simp [query, h]

/-- Witness for `query_timeout_recoverable`: a degraded success on a
non-empty final read, and an exception converted to a failed result. -/
theorem query_timeout_recoverable_witness :
    queryImpl "chatgpt" "hi" ⟨.ok (), true, true, false, .ok "still streaming"⟩ =
      .ok { platform := "chatgpt", prompt := "hi", response := "still streaming",
            success := true, error := none } ∧
    query "chatgpt" "hi"
      ⟨.error (.timeoutError "boom"), true, true, false, .ok ""⟩
      ⟨.error (.timeoutError "boom"), true, true, false, .ok ""⟩ =
      { platform := "chatgpt", prompt := pyTake "hi" 200, response := "",
        success := false,
        error := some (sanitize_error_message (.timeoutError "boom")) } := by
  constructor
  · have h := query_timeout_recoverable.2.1 "chatgpt" "hi"
      ⟨.ok (), true, true, false, .ok "still streaming"⟩ "still streaming"
      rfl rfl rfl rfl
    simpa using h
  · exact query_timeout_recoverable.2.2.2 "chatgpt" "hi" _ _
      (.timeoutError "boom") (by decide)

/-- The head of a list sorted by `winnerLE` has the maximum count, and the
minimum rank among entries tied on that count. -/
theorem winner_sorted_head_max {top : BrandMention} {tail : List BrandMention}
    (hsort : List.Sorted winnerLE (top :: tail)) :
    ∀ m2 ∈ top :: tail,
      m2.count ≤ top.count ∧ (m2.count = top.count → top.rank ≤ m2.rank) := by
  intro m2 hm2
  rcases List.mem_cons.1 hm2 with heq | htail
  · subst heq
    exact ⟨le_refl _, fun _ => le_refl _⟩
  · have hrel : winnerLE top m2 :=
      (List.pairwise_cons.1 hsort).1 m2 htail
    unfold winnerLE at hrel
    omega

/-- C1: `determine_winner` of the empty list is `none`; on the two
documented examples it returns `B` and `none` respectively; whenever it
returns a brand, that brand belongs to a mention of maximum count whose
rank is minimal among the mentions tied on that count; whenever it
returns `none` on a non-empty list, at least two mentions are tied on both
the maximum count and that minimal rank (a true tie); and conversely, on
EVERY input in which at least two mentions are tied on both the maximum
count and the minimal rank among the maximum-count mentions, it returns
`none` rather than an arbitrary tied brand. -/
theorem determine_winner_spec :
    determine_winner [] = none ∧
    determine_winner [⟨"A", 3, 2, "", false⟩, ⟨"B", 3, 1, "", false⟩] = some "B" ∧
    determine_winner [⟨"A", 3, 1, "", false⟩, ⟨"B", 3, 1, "", false⟩] = none ∧
    (∀ mentions b, determine_winner mentions = some b →
      ∃ m ∈ mentions, m.brand = b ∧
        (∀ m2 ∈ mentions, m2.count ≤ m.count) ∧
        (∀ m2 ∈ mentions, m2.count = m.count → m.rank ≤ m2.rank)) ∧
    (∀ mentions, mentions ≠ [] → determine_winner mentions = none →
      ∃ m ∈ mentions,
        (∀ m2 ∈ mentions, m2.count ≤ m.count) ∧
        2 ≤ mentions.countP
          (fun m2 => m2.count = m.count ∧ m2.rank = m.rank)) ∧
    (∀ mentions (m : BrandMention), m ∈ mentions →
      (∀ m2 ∈ mentions, m2.count ≤ m.count) →
      (∀ m2 ∈ mentions, m2.count = m.count → m.rank ≤ m2.rank) →
      2 ≤ mentions.countP
        (fun m2 => m2.count = m.count ∧ m2.rank = m.rank) →
      determine_winner mentions = none) := by
  refine ⟨by decide, by decide, by decide, ?_, ?_, ?_⟩
  · intro mentions b h
    by_cases hne : mentions = []
    · subst hne
      simp [determine_winner] at h
    · have hperm := List.perm_insertionSort winnerLE mentions
      have hsort := List.sorted_insertionSort winnerLE mentions
      rcases hsl : List.insertionSort winnerLE mentions with _ | ⟨top, tail⟩
      · rw [hsl] at hperm
        exact absurd hperm.nil_eq.symm hne
      · rw [hsl] at hperm hsort
        have hmax := winner_sorted_head_max hsort
        have htopb : b = top.brand := by
          simp only [determine_winner, if_neg hne, hsl] at h
          rcases tail with _ | ⟨next, rest⟩
          · simpa using h.symm
          · by_cases hcnt : next.count = top.count
            · have hrel := (List.pairwise_cons.1 hsort).1 next (by simp)
              unfold winnerLE at hrel
              have hrank : top.rank ≤ next.rank := by omega
              by_cases hlt : next.rank < top.rank
              · omega
              · by_cases heqr : next.rank = top.rank
                · simp [hcnt, hlt, heqr] at h
                · simpa [hcnt, hlt, heqr] using h.symm
            · simpa [hcnt] using h.symm
        refine ⟨top, ?_, htopb.symm, ?_, ?_⟩
        · exact hperm.mem_iff.1 (by simp)
        · intro m2 hm2
          exact (hmax m2 (hperm.mem_iff.2 hm2)).1
        · intro m2 hm2 hcnt
          exact (hmax m2 (hperm.mem_iff.2 hm2)).2 hcnt
  · intro mentions hne h
    have hperm := List.perm_insertionSort winnerLE mentions
    have hsort := List.sorted_insertionSort winnerLE mentions
    rcases hsl : List.insertionSort winnerLE mentions with _ | ⟨top, tail⟩
    · rw [hsl] at hperm
      exact absurd hperm.nil_eq.symm hne
    · rw [hsl] at hperm hsort
      have hmax := winner_sorted_head_max hsort
      simp only [determine_winner, if_neg hne, hsl] at h
      rcases tail with _ | ⟨next, rest⟩
      · simp at h
      · have hrel := (List.pairwise_cons.1 hsort).1 next (by simp)
        unfold winnerLE at hrel
        by_cases hcnt : next.count = top.count
        · by_cases hlt : next.rank < top.rank
          · omega
          · by_cases heqr : next.rank = top.rank
            · refine ⟨top, hperm.mem_iff.1 (by simp), ?_, ?_⟩
              · intro m2 hm2
                exact (hmax m2 (hperm.mem_iff.2 hm2)).1
              · rw [← hperm.countP_eq]
                simp only [List.countP_cons, hcnt, heqr]
                simp
            · simp [hcnt, hlt, heqr] at h
        · simp [hcnt] at h
  · intro mentions m hm hmax hmin hcnt2
    have hne : mentions ≠ [] := by
      intro h0
      subst h0
      exact absurd hm (by simp)
    have hperm := List.perm_insertionSort winnerLE mentions
    have hsort := List.sorted_insertionSort winnerLE mentions
    rcases hsl : List.insertionSort winnerLE mentions with _ | ⟨top, tail⟩
    · rw [hsl] at hperm
      exact absurd hperm.nil_eq.symm hne
    · rw [hsl] at hperm hsort
      have hmaxs := winner_sorted_head_max hsort
      have htopm : top ∈ mentions := hperm.mem_iff.1 (by simp)
      have hmins : m ∈ top :: tail := hperm.mem_iff.2 hm
      have hceq : top.count = m.count :=
        le_antisymm (hmax top htopm) (hmaxs m hmins).1
      have hreq : top.rank = m.rank :=
        le_antisymm ((hmaxs m hmins).2 hceq.symm) (hmin top htopm hceq)
      rw [← hperm.countP_eq, List.countP_cons] at hcnt2
      have htail : 0 < tail.countP
          (fun m2 => decide (m2.count = m.count ∧ m2.rank = m.rank)) := by
        have hif : (if decide (top.count = m.count ∧ top.rank = m.rank) = true
            then 1 else 0) ≤ 1 := by
          split <;> omega
        omega
      obtain ⟨y, hy, hpy⟩ := List.countP_pos_iff.1 htail
      simp only [decide_eq_true_eq] at hpy
      rcases tail with _ | ⟨next, rest⟩
      · exact absurd hy (by simp)
      · have hrel1 : winnerLE top next := (List.pairwise_cons.1 hsort).1 next (by simp)
        have hsort2 : List.Sorted winnerLE (next :: rest) :=
          (List.pairwise_cons.1 hsort).2
        have hnext : next.count = top.count ∧ next.rank = top.rank := by
          rcases List.mem_cons.1 hy with hyeq | hyrest
          · subst hyeq
            unfold winnerLE at hrel1
            constructor <;> omega
          · have hrel2 : winnerLE next y := (List.pairwise_cons.1 hsort2).1 y hyrest
            unfold winnerLE at hrel1 hrel2
            constructor <;> omega
        have hnlt : ¬ next.rank < top.rank := by omega
        simp only [determine_winner, if_neg hne, hsl]
        simp [hnext.1, hnlt, hnext.2]

/-- Witness for `determine_winner_spec`: the positive part applied at the
documented tie-break example, and the universal true-tie part applied at a
three-mention input with two brands tied on count 5 and rank 1. -/
theorem determine_winner_spec_witness :
    (∃ m ∈ [(⟨"A", 3, 2, "", false⟩ : BrandMention), ⟨"B", 3, 1, "", false⟩],
      m.brand = "B" ∧
      (∀ m2 ∈ [(⟨"A", 3, 2, "", false⟩ : BrandMention), ⟨"B", 3, 1, "", false⟩],
        m2.count ≤ m.count) ∧
      (∀ m2 ∈ [(⟨"A", 3, 2, "", false⟩ : BrandMention), ⟨"B", 3, 1, "", false⟩],
        m2.count = m.count → m.rank ≤ m2.rank)) ∧
    determine_winner [(⟨"X", 5, 1, "", false⟩ : BrandMention),
      ⟨"Y", 5, 1, "", false⟩, ⟨"Z", 2, 3, "", false⟩] = none :=
  ⟨determine_winner_spec.2.2.2.1
    [⟨"A", 3, 2, "", false⟩, ⟨"B", 3, 1, "", false⟩] "B" (by decide),
   determine_winner_spec.2.2.2.2.2
    [⟨"X", 5, 1, "", false⟩, ⟨"Y", 5, 1, "", false⟩, ⟨"Z", 2, 3, "", false⟩]
    ⟨"X", 5, 1, "", false⟩ (by decide) (by decide) (by decide) (by decide)⟩

/-- The head of a list sorted by `loserLE` has the minimum count, and the
maximum rank among entries tied on that count. -/
theorem loser_sorted_head_min {bot : BrandMention} {tail : List BrandMention}
    (hsort : List.Sorted loserLE (bot :: tail)) :
    ∀ m2 ∈ bot :: tail,
      bot.count ≤ m2.count ∧ (m2.count = bot.count → m2.rank ≤ bot.rank) := by
  intro m2 hm2
  rcases List.mem_cons.1 hm2 with heq | htail
  · subst heq
    exact ⟨le_refl _, fun _ => le_refl _⟩
  · have hrel : loserLE bot m2 :=
      (List.pairwise_cons.1 hsort).1 m2 htail
    unfold loserLE at hrel
    omega

/-- C8: `determine_loser` returns `none` on a list with fewer than 2
mentions, returns some brand whenever at least 2 brands are mentioned, and
any returned brand belongs to a mention of minimum count whose rank is
maximal (least prominent) among the mentions tied on that count. -/
theorem determine_loser_spec :
    (∀ mentions : List BrandMention, mentions.length < 2 →
      determine_loser mentions = none) ∧
    (∀ mentions : List BrandMention, 2 ≤ mentions.length →
      ∃ b, determine_loser mentions = some b) ∧
    (∀ mentions b, determine_loser mentions = some b →
      ∃ m ∈ mentions, m.brand = b ∧
        (∀ m2 ∈ mentions, m.count ≤ m2.count) ∧
        (∀ m2 ∈ mentions, m2.count = m.count → m2.rank ≤ m.rank)) := by
  refine ⟨?_, ?_, ?_⟩
  · intro mentions h
    simp [determine_loser, h]
  · intro mentions h
    have hperm := List.perm_insertionSort loserLE mentions
    rcases hsl : List.insertionSort loserLE mentions with _ | ⟨bot, tail⟩
    · rw [hsl] at hperm
      have := hperm.length_eq
      simp at this
      omega
    · exact ⟨bot.brand, by simp [determine_loser, Nat.not_lt.2 h, hsl]⟩
  · intro mentions b h
    have hlen : ¬ mentions.length < 2 := by
      intro hlt
      simp [determine_loser, hlt] at h
    have hperm := List.perm_insertionSort loserLE mentions
    have hsort := List.sorted_insertionSort loserLE mentions
    rcases hsl : List.insertionSort loserLE mentions with _ | ⟨bot, tail⟩
    · rw [hsl] at hperm
      have := hperm.length_eq
      simp at this
      omega
    · rw [hsl] at hperm hsort
      have hmin := loser_sorted_head_min hsort
      have hb : b = bot.brand := by
        simp only [determine_loser, if_neg hlen, hsl] at h
        simpa using h.symm
      refine ⟨bot, hperm.mem_iff.1 (by simp), hb.symm, ?_, ?_⟩
      · intro m2 hm2
        exact (hmin m2 (hperm.mem_iff.2 hm2)).1
      · intro m2 hm2 hcnt
        exact (hmin m2 (hperm.mem_iff.2 hm2)).2 hcnt

/-- Witness for `determine_loser_spec` at concrete inputs. -/
theorem determine_loser_spec_witness :
    determine_loser [(⟨"A", 3, 1, "", false⟩ : BrandMention)] = none ∧
    (∃ b, determine_loser
      [(⟨"A", 3, 1, "", false⟩ : BrandMention), ⟨"B", 1, 2, "", false⟩] = some b) :=
  ⟨determine_loser_spec.1 [⟨"A", 3, 1, "", false⟩] (by decide),
   determine_loser_spec.2.1
     [⟨"A", 3, 1, "", false⟩, ⟨"B", 1, 2, "", false⟩] (by decide)⟩

/-- One loop iteration of `calculate_brand_metrics` increments
`total_prompts_analyzed` by one and exactly one of `prompts_with_mention`
and `prompts_missed` by one. -/
theorem brandMetricsStep_counters (brand : String) (s : CalcState) (r : PromptResult) :
    (brandMetricsStep brand s r).totalPrompts = s.totalPrompts + 1 ∧
    (brandMetricsStep brand s r).withMention + (brandMetricsStep brand s r).missed
      = s.withMention + s.missed + 1 := by
  unfold brandMetricsStep
  cases hbm : findBrandMention brand r with
  | none =>
    cases hw : r.prompt_winner with
    | none => simp <;> omega
    | some w =>
      by_cases hwe : w = "" <;>
        by_cases hwl : pyLower w = pyLower brand <;>
        simp [hwe, hwl] <;> omega
  | some m =>
    cases hw : r.prompt_winner with
    | none => simp <;> omega
    | some w =>
      by_cases hwe : w = ""
      · simp [hwe] <;> omega
      · by_cases hwl : pyLower w = pyLower brand
        · simp [hwe, hwl] <;> omega
        · cases hl : r.prompt_loser with
          | none => simp [hwe, hwl] <;> omega
          | some l =>
            by_cases hll : l ≠ "" ∧ pyLower l = pyLower brand <;>
              simp [hwe, hwl, hll] <;> omega

/-- Folding the loop over a list of results adds the list length to
`total_prompts_analyzed` and to `prompts_with_mention + prompts_missed`. -/
theorem foldl_brandMetricsStep_counters (brand : String) :
    ∀ (l : List PromptResult) (s : CalcState),
      ((l.foldl (brandMetricsStep brand) s).totalPrompts
        = s.totalPrompts + l.length) ∧
      ((l.foldl (brandMetricsStep brand) s).withMention +
        (l.foldl (brandMetricsStep brand) s).missed
        = s.withMention + s.missed + l.length) := by
  intro l
  induction l with
  | nil =>
    intro s
    simp
  | cons r rest ih =>
    intro s
    simp only [List.foldl_cons, List.length_cons]
    obtain ⟨h1, h2⟩ := ih (brandMetricsStep brand s r)
    obtain ⟨hs1, hs2⟩ := brandMetricsStep_counters brand s r
    constructor <;> omega

/-- C9: in the metrics returned by `calculate_brand_metrics`, every input
`PromptResult` is counted exactly once as either a mention or a miss:
`prompts_with_mention + prompts_missed = total_prompts_analyzed` and
`total_prompts_analyzed` is the length of the input list. -/
theorem brand_metrics_partition (brand : String) (results : List PromptResult)
    (all_brands : List String) :
    ((calculate_brand_metrics brand results all_brands).prompts_with_mention +
      (calculate_brand_metrics brand results all_brands).prompts_missed =
      (calculate_brand_metrics brand results all_brands).total_prompts_analyzed) ∧
    ((calculate_brand_metrics brand results all_brands).total_prompts_analyzed =
      results.length) := by
  obtain ⟨h1, h2⟩ :=
    foldl_brandMetricsStep_counters brand results initCalcState
  have hz1 : initCalcState.totalPrompts = 0 := rfl
  have hz2 : initCalcState.withMention = 0 := rfl
  have hz3 : initCalcState.missed = 0 := rfl
  rw [hz1] at h1
  rw [hz2, hz3] at h2
  simp only [calculate_brand_metrics]
  exact ⟨by omega, by omega⟩

/-- A successfully parsed analysis carries exactly the `promptId` value
that the loop also records in `processed_ids`. -/
theorem parseAnalysis_promptId (vb : List String) (a : Json) (r : ExtractionResult)
    (h : parseAnalysis vb a = .ok r) :
    r.promptId = jGetD a "promptId" (Json.str "") := by
  unfold parseAnalysis at h
  split at h
  · exact absurd h (by simp)
  · simp only [Except.ok.injEq] at h
    rw [← h]

/-- On success, the prompt ids of the results produced by the analyses
loop are exactly `processed_ids`, in order. -/
theorem parseAnalyses_promptIds (vb : List String) :
    ∀ (items : List Json) (rs : List ExtractionResult),
      parseAnalyses vb items = .ok rs →
      rs.map (fun r => r.promptId) = processedIds items := by
  intro items
  induction items with
  | nil =>
    intro rs h
    simp only [parseAnalyses, Except.ok.injEq] at h
    rw [← h]
    rfl
  | cons a rest ih =>
    intro rs h
    match ha : a with
    | .obj fields =>
      rw [parseAnalyses] at h
      cases hr : parseAnalysis vb (.obj fields) with
      | error e =>
        rw [hr] at h
        exact absurd h (by simp)
      | ok r =>
        rw [hr] at h
        cases hrest : parseAnalyses vb rest with
        | error e =>
          rw [hrest] at h
          exact absurd h (by simp)
        | ok rs2 =>
          rw [hrest] at h
          simp only [Except.ok.injEq] at h
          rw [← h]
          simp only [List.map_cons, processedIds, List.filterMap_cons]
          rw [parseAnalysis_promptId vb _ r hr]
          have := ih rs2 hrest
          simp only [processedIds] at this
          rw [this]
    | .null | .bool _ | .num _ | .str _ | .arr _ =>
      exact (ih rs h).trans (by simp [processedIds])

/-- In a duplicate-free list of strings containing `pid`, exactly one
entry equals `pid`. -/
theorem countP_eq_one_of_nodup_mem :
    ∀ (l : List String) (pid : String), l.Nodup → pid ∈ l →
      l.countP (fun x => x = pid) = 1 := by
  intro l
  induction l with
  | nil =>
    intro pid _ hm
    exact absurd hm (by simp)
  | cons x rest ih =>
    intro pid hnd hm
    rw [List.countP_cons]
    rcases List.mem_cons.1 hm with heq | hrest
    · subst heq
      have hx : pid ∉ rest := (List.nodup_cons.1 hnd).1
      have hz : rest.countP (fun y => decide (y = pid)) = 0 := by
        rw [List.countP_eq_zero]
        intro a ha
        simp only [decide_eq_true_eq]
        intro hax
        exact hx (hax ▸ ha)
      simp [hz]
    · have hz := ih pid (List.nodup_cons.1 hnd).2 hrest
      have hxp : ¬ x = pid := by
        intro hxe
        exact (List.nodup_cons.1 hnd).1 (hxe ▸ hrest)
      simp [hz, hxp]

/-- How `extract_batch` can go: it returns `[]` when either input list is
empty; otherwise either the service output decoded, was a dict, its
`analyses` value was iterable and the analyses loop succeeded, giving the
parsed results followed by empty fallbacks; or some exception / decode
failure produced one empty result per response. -/
theorem extract_batch_cases (ids brands : List String)
    (service : Except PyExn (Option Json)) :
    ((ids.isEmpty || brands.isEmpty) = true ∧
      extract_batch ids brands service = []) ∨
    (∃ data items rs, service = .ok (some data) ∧
      pyIter (jGetD data "analyses" (Json.arr [])) = .ok items ∧
      parseAnalyses brands items = .ok rs ∧
      extract_batch ids brands service =
        rs ++ (ids.filter (fun pid =>
          ¬ (processedIds items).any (fun j => j.isStr pid))).map emptyResult) ∨
    extract_batch ids brands service = ids.map emptyResult := by
  by_cases hempty : (ids.isEmpty || brands.isEmpty) = true
  · left
    exact ⟨hempty, by simp [extract_batch, hempty]⟩
  · cases hserv : service with
    | error e =>
      right; right
      simp [extract_batch, hempty, hserv]
    | ok content =>
      cases hcont : content with
      | none =>
        right; right
        simp [extract_batch, hempty, hserv, parse_batch_response]
      | some data =>
        match hdata : data with
        | .obj fields =>
          cases hiter : pyIter (jGetD (.obj fields) "analyses" (Json.arr [])) with
          | error e =>
            right; right
            simp [extract_batch, hempty, hserv, parse_batch_response, hiter]
          | ok items =>
            cases hpa : parseAnalyses brands items with
            | error e =>
              right; right
              simp [extract_batch, hempty, hserv, parse_batch_response, hiter, hpa]
            | ok rs =>
              right; left
              refine ⟨.obj fields, items, rs, rfl, hiter, hpa, ?_⟩
              simp [extract_batch, hempty, hserv, parse_batch_response, hiter, hpa]
        | .null | .bool _ | .num _ | .str _ | .arr _ =>
          right; right
          simp [extract_batch, hempty, hserv, parse_batch_response]

/-- Counting matches of an input prompt id among synthesized empty
results counts the equal entries of the underlying id list. -/
theorem pidCount_map_emptyResult (l : List String) (pid : String) :
    pidCount (l.map emptyResult) pid = l.countP (fun x => x = pid) := by
  unfold pidCount
  rw [List.countP_map]
  rfl

/-- The service output that lists the same `promptId` twice. -/
def dupAnalysesJson : Json :=
  .obj [("analyses", .arr [.obj [("promptId", .str "p1")],
                           .obj [("promptId", .str "p1")]])]

/-- C2, counterexample: when the completion service returns two analyses
with the same `promptId`, `extract_batch` returns two results carrying
that input prompt id — not exactly one. -/
theorem extract_batch_duplicate_counterexample :
    pidCount (extract_batch ["p1"] ["BrandA"]
      (.ok (some dupAnalysesJson))) "p1" = 2 := by
  decide

/-- C2, amended: every input prompt id appears in at least one returned
`ExtractionResult`, whatever the service did (raised, returned undecodable
text, or returned any decoded value); it appears in exactly one whenever
the decoded `analyses` list mentions that prompt id at most once. -/
theorem extract_batch_coverage (original_ids brands : List String)
    (service : Except PyExn (Option Json))
    (hbr : brands ≠ []) (hnd : original_ids.Nodup) :
    (∀ pid ∈ original_ids,
      1 ≤ pidCount (extract_batch original_ids brands service) pid) ∧
    (∀ pid ∈ original_ids,
      (∀ data items, service = Except.ok (some data) →
        pyIter (jGetD data "analyses" (Json.arr [])) = Except.ok items →
        (processedIds items).countP (fun j => j.isStr pid) ≤ 1) →
      pidCount (extract_batch original_ids brands service) pid = 1) := by
  have hkey : ∀ pid ∈ original_ids,
      (1 ≤ pidCount (extract_batch original_ids brands service) pid) ∧
      ((∀ data items, service = Except.ok (some data) →
          pyIter (jGetD data "analyses" (Json.arr [])) = Except.ok items →
          (processedIds items).countP (fun j => j.isStr pid) ≤ 1) →
        pidCount (extract_batch original_ids brands service) pid = 1) := by
    intro pid hm
    rcases extract_batch_cases original_ids brands service with
      ⟨hemp, _⟩ | ⟨data, items, rs, hserv, hiter, hpa, heq⟩ | heq
    · exfalso
      rcases Bool.or_eq_true_iff.1 hemp with hi | hb
      · rw [List.isEmpty_iff] at hi
        subst hi
        exact absurd hm (by simp)
      · rw [List.isEmpty_iff] at hb
        exact hbr hb
    · have hsplit : pidCount (extract_batch original_ids brands service) pid =
          (processedIds items).countP (fun j => j.isStr pid) +
          ((original_ids.filter (fun pid2 =>
            ¬ (processedIds items).any (fun j => j.isStr pid2))).countP
              (fun x => x = pid)) := by
        rw [heq]
        unfold pidCount
        rw [List.countP_append]
        congr 1
        · rw [← parseAnalyses_promptIds brands items rs hpa, List.countP_map]
          rfl
        · rw [List.countP_map]
          rfl
      cases hany : (processedIds items).any (fun j => j.isStr pid) with
      | true =>
        have hpos : 0 < (processedIds items).countP (fun j => j.isStr pid) :=
          List.countP_pos_iff.2 (by simpa using List.any_eq_true.1 hany)
        have hfil : ((original_ids.filter (fun pid2 =>
            ¬ (processedIds items).any (fun j => j.isStr pid2))).countP
              (fun x => x = pid)) = 0 := by
          rw [List.countP_eq_zero]
          intro a ha
          simp only [decide_eq_true_eq]
          intro hae
          subst hae
          have := (List.mem_filter.1 ha).2
          simp [hany] at this
        constructor
        · rw [hsplit, hfil]
          omega
        · intro hu
          have hle := hu data items hserv hiter
          rw [hsplit, hfil]
          omega
      | false =>
        have hzero : (processedIds items).countP (fun j => j.isStr pid) = 0 := by
          rw [List.countP_eq_zero]
          intro j hj
          have := List.any_eq_false.1 hany j hj
          simpa using this
        have hmemf : pid ∈ original_ids.filter (fun pid2 =>
            ¬ (processedIds items).any (fun j => j.isStr pid2)) := by
          rw [List.mem_filter]
          exact ⟨hm, by simp [hany]⟩
        have hone : ((original_ids.filter (fun pid2 =>
            ¬ (processedIds items).any (fun j => j.isStr pid2))).countP
              (fun x => x = pid)) = 1 :=
          countP_eq_one_of_nodup_mem _ pid (hnd.filter _) hmemf
        constructor
        · rw [hsplit, hzero, hone]
        · intro _
          rw [hsplit, hzero, hone]
    · have hone : original_ids.countP (fun x => x = pid) = 1 :=
        countP_eq_one_of_nodup_mem _ pid hnd hm
      rw [heq, pidCount_map_emptyResult, hone]
      exact ⟨le_refl 1, fun _ => rfl⟩
  exact ⟨fun pid hm => (hkey pid hm).1, fun pid hm hu => (hkey pid hm).2 hu⟩

/-- Witness for `extract_batch_coverage`: a service raise still yields
exactly one (empty) result for the input id. -/
theorem extract_batch_coverage_witness :
    1 ≤ pidCount (extract_batch ["p9"] ["BrandA"]
        (.error .typeError)) "p9" ∧
    pidCount (extract_batch ["p9"] ["BrandA"] (.error .typeError)) "p9" = 1 := by
  have h := extract_batch_coverage ["p9"] ["BrandA"] (.error .typeError)
    (by decide) (by simp)
  refine ⟨h.1 "p9" (by simp), h.2 "p9" (by simp) ?_⟩
  intro data items hserv
  exact absurd hserv (by simp)

/-- A mention item of the service output whose `count` field, when
present, is a JSON number that is at least 1. -/
def countOkItem (item : Json) : Prop :=
  match jGet item "count" with
  | none => True
  | some (Json.num n) => 1 ≤ n
  | some _ => False

/-- An analysis of the service output all of whose mention items satisfy
`countOkItem`. -/
def countOkAnalysis (a : Json) : Prop :=
  match jGetD a "mentions" (Json.arr []) with
  | .arr items => ∀ item ∈ items, countOkItem item
  | _ => True

/-- A service output reporting a tracked brand with `count = 0`. -/
def zeroCountJson : Json :=
  .obj [("analyses", .arr [.obj [("promptId", .str "p1"),
    ("mentions", .arr [.obj [("brand", .str "BrandA"),
                             ("count", .num 0)]])]])]

/-- C5, counterexample: the batch parser accepts a mention with
`count = 0` verbatim, so a `BrandMention` with count 0 is present in the
returned results — the parser does not enforce `count ≥ 1`. -/
theorem extract_batch_zero_count_counterexample :
    ∃ r ∈ extract_batch ["p1"] ["BrandA"] (.ok (some zeroCountJson)),
      ∃ m ∈ r.mentions, m.count = 0 := by
  decide

/-- Every mention produced by the mention loop has `count ≥ 1`, provided
the accumulated mentions do and every remaining item's `count` field is
absent or a JSON number ≥ 1. -/
theorem parseMentionsAux_counts (vb : List String) :
    ∀ (items : List Json) (acc ms : List BrandMention),
      (∀ item ∈ items, countOkItem item) →
      (∀ m ∈ acc, 1 ≤ m.count) →
      parseMentionsAux vb items acc = .ok ms →
      ∀ m ∈ ms, 1 ≤ m.count := by
  intro items
  induction items with
  | nil =>
    intro acc ms _ hacc h
    simp only [parseMentionsAux, Except.ok.injEq] at h
    rw [← h]
    exact hacc
  | cons item rest ih =>
    intro acc ms hitems hacc h
    match hit : item with
    | .obj fields =>
      rw [parseMentionsAux] at h
      cases hmb : matchBrand vb (jGetD (.obj fields) "brand" (Json.str "")) with
      | error e =>
        rw [hmb] at h
        exact absurd h (by simp)
      | ok matched =>
        rw [hmb] at h
        cases matched with
        | none =>
          exact ih acc ms (fun i hi => hitems i (List.mem_cons_of_mem _ hi)) hacc h
        | some b =>
          cases hsl : pySliceStr (jGetD (.obj fields) "context" (Json.str "")) 200 with
          | error e =>
            rw [hsl] at h
            exact absurd h (by simp)
          | ok context =>
            rw [hsl] at h
            refine ih _ ms (fun i hi => hitems i (List.mem_cons_of_mem _ hi)) ?_ h
            intro m hmacc
            rcases List.mem_append.1 hmacc with hold | hnew
            · exact hacc m hold
            · rw [List.mem_singleton] at hnew
              subst hnew
              have hcnt := hitems (Json.obj fields) (List.mem_cons_self _ _)
              unfold countOkItem at hcnt
              cases hjc : jGet (Json.obj fields) "count" with
              | none => simp
              | some v =>
                rw [hjc] at hcnt
                cases v with
                | num n => simpa [pyInt] using hcnt
                | null | bool _ | str _ | arr _ | obj _ =>
                  exact absurd hcnt (by simp)
    | .null | .bool _ | .num _ | .str _ | .arr _ =>
      exact ih acc ms (fun i hi => hitems i (List.mem_cons_of_mem _ hi)) hacc h

/-- A successfully parsed analysis has only mentions with `count ≥ 1`
when its items satisfy `countOkAnalysis`. -/
theorem parseAnalysis_counts (vb : List String) (a : Json)
    (r : ExtractionResult) (hok : countOkAnalysis a)
    (h : parseAnalysis vb a = .ok r) :
    ∀ m ∈ r.mentions, 1 ≤ m.count := by
  unfold parseAnalysis at h
  unfold countOkAnalysis at hok
  split at h
  · exact absurd h (by simp)
  · rename_i mentions hinner
    simp only [Except.ok.injEq] at h
    intro m hm
    rw [← h] at hm
    simp only at hm
    split at hinner
    · rename_i items heqm
      rw [heqm] at hok
      exact parseMentionsAux_counts vb items [] mentions hok (by simp) hinner m hm
    · simp only [Except.ok.injEq] at hinner
      rw [← hinner] at hm
      exact absurd hm (by simp)

/-- Over the whole analyses loop. -/
theorem parseAnalyses_counts (vb : List String) :
    ∀ (items : List Json) (rs : List ExtractionResult),
      (∀ a ∈ items, countOkAnalysis a) →
      parseAnalyses vb items = .ok rs →
      ∀ r ∈ rs, ∀ m ∈ r.mentions, 1 ≤ m.count := by
  intro items
  induction items with
  | nil =>
    intro rs _ h
    simp only [parseAnalyses, Except.ok.injEq] at h
    rw [← h]
    simp
  | cons a rest ih =>
    intro rs hitems h
    match ha : a with
    | .obj fields =>
      rw [parseAnalyses] at h
      cases hr : parseAnalysis vb (.obj fields) with
      | error e =>
        rw [hr] at h
        exact absurd h (by simp)
      | ok r0 =>
        rw [hr] at h
        cases hrest : parseAnalyses vb rest with
        | error e =>
          rw [hrest] at h
          exact absurd h (by simp)
        | ok rs2 =>
          rw [hrest] at h
          simp only [Except.ok.injEq] at h
          intro r hrr
          rw [← h] at hrr
          rcases List.mem_cons.1 hrr with heq | htail
          · subst heq
            exact parseAnalysis_counts vb _ r
              (hitems (Json.obj fields) (List.mem_cons_self _ _)) hr
          · exact ih rs2 (fun x hx => hitems x (List.mem_cons_of_mem _ hx))
              hrest r htail
    | .null | .bool _ | .num _ | .str _ | .arr _ =>
      exact ih rs (fun x hx => hitems x (List.mem_cons_of_mem _ hx)) h

/-- C5, amended: the parser takes each mention's `count` verbatim from the
service output (defaulting to 1 when the field is absent) and does not
enforce positivity; hence every `BrandMention` in the returned
`ExtractionResults` has `count ≥ 1` provided every mention item of the
accepted service output has its `count` field absent or a JSON number ≥ 1. -/
theorem extract_batch_counts_positive (original_ids brands : List String)
    (service : Except PyExn (Option Json))
    (hok : ∀ data, service = Except.ok (some data) →
      ∀ items, pyIter (jGetD data "analyses" (Json.arr [])) = Except.ok items →
      ∀ a ∈ items, countOkAnalysis a) :
    ∀ r ∈ extract_batch original_ids brands service,
      ∀ m ∈ r.mentions, 1 ≤ m.count := by
  rcases extract_batch_cases original_ids brands service with
    ⟨_, heq⟩ | ⟨data, items, rs, hserv, hiter, hpa, heq⟩ | heq
  · rw [heq]
    intro r hr
    exact absurd hr (by simp)
  · rw [heq]
    intro r hr m hm
    rcases List.mem_append.1 hr with hin | hin
    · exact parseAnalyses_counts brands items rs
        (hok data hserv items hiter) hpa r hin m hm
    · obtain ⟨pid2, _, hre⟩ := List.mem_map.1 hin
      rw [← hre] at hm
      exact absurd hm (by simp [emptyResult])
  · rw [heq]
    intro r hr m hm
    obtain ⟨pid2, _, hre⟩ := List.mem_map.1 hr
    rw [← hre] at hm
    exact absurd hm (by simp [emptyResult])

/-- A well-formed analysis with a single mention of count 2. -/
def positiveAnalysis : Json :=
  .obj [("promptId", .str "p1"),
        ("mentions", .arr [.obj [("brand", .str "BrandA"),
                                 ("count", .num 2)]])]

/-- A well-formed service output wrapping `positiveAnalysis`. -/
def positiveCountJson : Json :=
  .obj [("analyses", .arr [positiveAnalysis])]

/-- Witness for `extract_batch_counts_positive`: a well-formed service
output with `count = 2` yields a mention with a positive count. -/
theorem extract_batch_counts_positive_witness :
    (1 : Int) ≤ (BrandMention.mk "BrandA" 2 1 "" false).count := by
  refine extract_batch_counts_positive ["p1"] ["BrandA"]
    (.ok (some positiveCountJson)) ?_
    ⟨Json.str "p1", [⟨"BrandA", 2, 1, "", false⟩], []⟩
    (List.mem_singleton.2 rfl) ⟨"BrandA", 2, 1, "", false⟩
    (List.mem_singleton.2 rfl)
  intro data hserv items hiter
  simp only [Except.ok.injEq, Option.some.injEq] at hserv
  subst hserv
  have h0 : pyIter (jGetD positiveCountJson "analyses" (Json.arr [])) =
      Except.ok [positiveAnalysis] := rfl
  rw [h0] at hiter
  simp only [Except.ok.injEq] at hiter
  subst hiter
  intro a ha
  simp only [List.mem_singleton] at ha
  subst ha
  intro item hitem
  simp only [List.mem_singleton] at hitem
  subst hitem
  show (1 : Int) ≤ 2
  norm_num

/-- Round-half-to-even never exceeds its argument by more than 1/2. -/
theorem pyRound_le (q : ℚ) : (pyRound q : ℚ) ≤ q + 1/2 := by
  unfold pyRound
  have hf : (⌊q⌋ : ℚ) ≤ q := Int.floor_le q
  split_ifs with h1 h2 h3
  · linarith
  · push_cast
    linarith
  · linarith
  · push_cast
    linarith

/-- Rounding to one decimal never exceeds the value by more than 1/20. -/
theorem round1_le (q : ℚ) : round1 q ≤ q + 1/20 := by
  unfold round1
  have h := pyRound_le (q * 10)
  linarith

/-- The citation share is at most the unrounded percentage plus the
one-decimal rounding slack, whenever the numerator is non-negative. -/
theorem calculate_citation_share_le (num D : ℤ) :
    calculate_citation_share num D ≤ (num : ℚ) / (D : ℚ) * 100 + 1/20 := by
  unfold calculate_citation_share
  split_ifs with hD
  · subst hD
    simp
  · exact round1_le _

/-- `matchCountMentions brand ms`: the count of the first mention whose
brand equals `brand` case-insensitively, 0 when there is none (the value
`calculate_brand_metrics` adds to `mentions_by_platform` for one result). -/
def matchCountMentions (brand : String) (ms : List BrandMention) : Int :=
  match ms.find? (fun m => pyLower m.brand = pyLower brand) with
  | some m => m.count
  | none => 0

/-- `matchCountMentions` on a result's mention list. -/
def matchCount (brand : String) (r : PromptResult) : Int :=
  matchCountMentions brand r.mentions

/-- The total of the brand's matched counts over the results of one
platform — the per-platform numerator of the citation share. -/
def brandPlatformMentions (brand : String) (results : List PromptResult)
    (p : String) : Int :=
  ((results.filter (fun r => r.platform = p)).map
    (fun r => matchCount brand r)).sum

/-- Sums of pointwise sums split. -/
theorem sum_map_add {α : Type} (l : List α) (f g : α → Int) :
    (l.map (fun b => f b + g b)).sum = (l.map f).sum + (l.map g).sum := by
  induction l with
  | nil => simp
  | cons a rest ih =>
    simp only [List.map_cons, List.sum_cons, ih]
    ring

/-- A matched count is non-negative when all counts are. -/
theorem matchCountMentions_nonneg (brand : String) (ms : List BrandMention)
    (hpos : ∀ m ∈ ms, 0 ≤ m.count) : 0 ≤ matchCountMentions brand ms := by
  unfold matchCountMentions
  cases hf : ms.find? (fun m => pyLower m.brand = pyLower brand) with
  | none => exact le_refl 0
  | some m => exact hpos m (List.mem_of_find?_eq_some hf)

/-- `sumCounts` of a list of non-negative counts is non-negative. -/
theorem sumCounts_nonneg (ms : List BrandMention)
    (hpos : ∀ m ∈ ms, 0 ≤ m.count) : 0 ≤ sumCounts ms := by
  unfold sumCounts
  induction ms with
  | nil => simp
  | cons m rest ih =>
    simp only [List.map_cons, List.sum_cons]
    have h1 := hpos m (List.mem_cons_self _ _)
    have h2 := ih (fun x hx => hpos x (List.mem_cons_of_mem _ hx))
    omega

/-- The per-platform denominator is non-negative when all counts are. -/
theorem platformTotalMentions_nonneg (results : List PromptResult) (p : String)
    (hpos : ∀ r ∈ results, ∀ m ∈ r.mentions, 0 ≤ m.count) :
    0 ≤ platformTotalMentions results p := by
  unfold platformTotalMentions
  induction results with
  | nil => simp
  | cons r rest ih =>
    have h1 := sumCounts_nonneg r.mentions (hpos r (List.mem_cons_self _ _))
    have h2 := ih (fun x hx => hpos x (List.mem_cons_of_mem _ hx))
    rw [List.filter_cons]
    split
    · simp only [List.map_cons, List.sum_cons]
      omega
    · exact h2

/-- Effect of one loop iteration on `mentions_by_platform[p]`: it grows by
the brand's matched count when the result belongs to platform `p`. -/
theorem brandMetricsStep_mentionsBy (brand : String) (s : CalcState)
    (r : PromptResult) (p : String) :
    (brandMetricsStep brand s r).mentionsBy p =
      s.mentionsBy p + (if r.platform = p then matchCount brand r else 0) := by
  unfold brandMetricsStep
  cases hbm : findBrandMention brand r with
  | none =>
    have hmc : matchCount brand r = 0 := by
      unfold matchCount matchCountMentions
      unfold findBrandMention at hbm
      rw [hbm]
    cases hw : r.prompt_winner with
    | none => simp [hmc]
    | some w =>
      by_cases hwe : w = "" <;> by_cases hwl : pyLower w = pyLower brand <;>
        simp [hmc, hwe, hwl]
  | some m =>
    have hmc : matchCount brand r = m.count := by
      unfold matchCount matchCountMentions
      unfold findBrandMention at hbm
      rw [hbm]
    have hupd : updMap s.mentionsBy r.platform (s.mentionsBy r.platform + m.count) p
        = s.mentionsBy p + (if r.platform = p then m.count else 0) := by
      unfold updMap
      by_cases hp : p = r.platform
      · simp [hp]
      · have hp2 : ¬ r.platform = p := fun h => hp h.symm
        simp [hp, hp2]
    cases hw : r.prompt_winner with
    | none => simp [hmc, hupd]
    | some w =>
      by_cases hwe : w = ""
      · simp [hmc, hupd, hwe]
      · by_cases hwl : pyLower w = pyLower brand
        · simp [hmc, hupd, hwe, hwl]
        · cases hl : r.prompt_loser with
          | none => simp [hmc, hupd, hwe, hwl]
          | some l =>
            by_cases hll : l ≠ "" ∧ pyLower l = pyLower brand <;>
              simp [hmc, hupd, hwe, hwl, hll]

/-- Unfolding `brandPlatformMentions` over the first result. -/
theorem brandPlatformMentions_cons (b : String) (r : PromptResult)
    (rest : List PromptResult) (p : String) :
    brandPlatformMentions b (r :: rest) p =
      (if r.platform = p then matchCount b r else 0) +
        brandPlatformMentions b rest p := by
  unfold brandPlatformMentions
  rw [List.filter_cons]
  by_cases hp : r.platform = p
  · simp [hp]
  · simp [hp]

/-- Unfolding `platformTotalMentions` over the first result. -/
theorem platformTotalMentions_cons (r : PromptResult)
    (rest : List PromptResult) (p : String) :
    platformTotalMentions (r :: rest) p =
      (if r.platform = p then sumCounts r.mentions else 0) +
        platformTotalMentions rest p := by
  unfold platformTotalMentions
  rw [List.filter_cons]
  by_cases hp : r.platform = p
  · simp [hp]
  · simp [hp]

/-- Folding the loop accumulates `brandPlatformMentions` into
`mentions_by_platform[p]`. -/
theorem foldl_mentionsBy (brand : String) (p : String) :
    ∀ (l : List PromptResult) (s : CalcState),
      (l.foldl (brandMetricsStep brand) s).mentionsBy p =
        s.mentionsBy p + brandPlatformMentions brand l p := by
  intro l
  induction l with
  | nil =>
    intro s
    simp [brandPlatformMentions]
  | cons r rest ih =>
    intro s
    simp only [List.foldl_cons]
    rw [ih (brandMetricsStep brand s r), brandMetricsStep_mentionsBy,
      brandPlatformMentions_cons]
    omega

/-- Likewise for the key list of the per-platform dicts: one iteration
appends the platform when it is new (used to resolve the breakdown
lookup). -/
theorem brandMetricsStep_platforms (brand : String) (s : CalcState)
    (r : PromptResult) :
    (brandMetricsStep brand s r).platforms =
      (if r.platform ∈ s.platforms then s.platforms
       else s.platforms ++ [r.platform]) := by
  unfold brandMetricsStep
  cases hbm : findBrandMention brand r with
  | none =>
    cases hw : r.prompt_winner with
    | none => simp
    | some w =>
      by_cases hwe : w = "" <;> by_cases hwl : pyLower w = pyLower brand <;>
        simp [hwe, hwl]
  | some m =>
    cases hw : r.prompt_winner with
    | none => simp
    | some w =>
      by_cases hwe : w = ""
      · simp [hwe]
      · by_cases hwl : pyLower w = pyLower brand
        · simp [hwe, hwl]
        · cases hl : r.prompt_loser with
          | none => simp [hwe, hwl]
          | some l =>
            by_cases hll : l ≠ "" ∧ pyLower l = pyLower brand <;>
              simp [hwe, hwl, hll]

/-- Looking up a key in an association list built by mapping a key list to
pairs: present iff the key occurs. -/
theorem lookup_map_pair {β : Type} (l : List String) (g : String → β)
    (p0 : String) :
    (l.map (fun p => (p, g p))).lookup p0 =
      if p0 ∈ l then some (g p0) else none := by
  induction l with
  | nil => simp
  | cons a rest ih =>
    simp only [List.map_cons, List.lookup]
    cases hba : p0 == a
    · have hne : ¬ p0 = a := by simpa using hba
      simp [hne, ih]
    · have heq : p0 = a := by simpa using hba
      simp [heq]

/-- Pointwise sums over ℚ split. -/
theorem sum_map_addQ {α : Type} (l : List α) (f g : α → ℚ) :
    (l.map (fun b => f b + g b)).sum = (l.map f).sum + (l.map g).sum := by
  induction l with
  | nil => simp
  | cons a rest ih =>
    simp only [List.map_cons, List.sum_cons, ih]
    ring

/-- Summing a constant over a list. -/
theorem sum_map_constQ {α : Type} (l : List α) (c : ℚ) :
    (l.map (fun _ => c)).sum = (l.length : ℚ) * c := by
  induction l with
  | nil => simp
  | cons a rest ih =>
    simp only [List.map_cons, List.sum_cons, List.length_cons, ih]
    push_cast
    ring

/-- Pulling a constant factor out of a sum. -/
theorem sum_map_mul_rightQ {α : Type} (l : List α) (f : α → ℚ) (c : ℚ) :
    (l.map (fun b => f b * c)).sum = (l.map f).sum * c := by
  induction l with
  | nil => simp
  | cons a rest ih =>
    simp only [List.map_cons, List.sum_cons, ih]
    ring

/-- Casting an integer sum into ℚ elementwise. -/
theorem sum_map_intCast {α : Type} (l : List α) (f : α → ℤ) :
    (l.map (fun b => ((f b : ℤ) : ℚ))).sum = (((l.map f).sum : ℤ) : ℚ) := by
  induction l with
  | nil => simp
  | cons a rest ih =>
    simp only [List.map_cons, List.sum_cons, ih]
    push_cast
    ring

/-- Absorbing the head mention: summed over brands with pairwise-distinct
lowercase names, at most one brand matches the head, so the summed matched
counts grow by at most the head's count. -/
theorem sum_matchCount_cons (brands : List String) (m : BrandMention)
    (rest : List BrandMention)
    (hnd : (brands.map pyLower).Nodup)
    (hm0 : 0 ≤ m.count) (hrest : ∀ x ∈ rest, 0 ≤ x.count) :
    (brands.map (fun b => matchCountMentions b (m :: rest))).sum ≤
      m.count + (brands.map (fun b => matchCountMentions b rest)).sum := by
  induction brands with
  | nil => simpa using hm0
  | cons b bs ih =>
    have hnd2 : (bs.map pyLower).Nodup := (List.nodup_cons.1 (by simpa using hnd)).2
    have hbnotin : pyLower b ∉ bs.map pyLower :=
      (List.nodup_cons.1 (by simpa using hnd)).1
    simp only [List.map_cons, List.sum_cons]
    by_cases hb : pyLower m.brand = pyLower b
    · have h1 : matchCountMentions b (m :: rest) = m.count := by
        unfold matchCountMentions
        rw [List.find?_cons_of_pos _ (by simpa using hb)]
      have h2 : ∀ b2 ∈ bs, matchCountMentions b2 (m :: rest) =
          matchCountMentions b2 rest := by
        intro b2 hb2
        unfold matchCountMentions
        rw [List.find?_cons_of_neg]
        simp only [decide_eq_true_eq]
        intro hmb2
        exact hbnotin (by
          have hbb2 : pyLower b = pyLower b2 := hb.symm.trans hmb2
          rw [hbb2]
          exact List.mem_map_of_mem _ hb2)
      rw [h1, List.map_congr_left h2]
      have h3 : 0 ≤ matchCountMentions b rest :=
        matchCountMentions_nonneg b rest hrest
      omega
    · have h1 : matchCountMentions b (m :: rest) = matchCountMentions b rest := by
        unfold matchCountMentions
        rw [List.find?_cons_of_neg]
        simp only [decide_eq_true_eq]
        exact hb
      have h4 := ih hnd2
      rw [h1]
      omega

/-- Over a whole mention list: the brands' matched counts sum to at most
the total of all mention counts. -/
theorem sum_matchCount_le (brands : List String) (ms : List BrandMention)
    (hnd : (brands.map pyLower).Nodup)
    (hpos : ∀ m ∈ ms, 0 ≤ m.count) :
    (brands.map (fun b => matchCountMentions b ms)).sum ≤ sumCounts ms := by
  induction ms with
  | nil =>
    have hz : ((brands.map fun b =>
        matchCountMentions b ([] : List BrandMention))).sum = 0 := by
      apply List.sum_eq_zero
      intro x hx
      obtain ⟨b, _, hb⟩ := List.mem_map.1 hx
      rw [← hb]
      rfl
    rw [hz]
    simp [sumCounts]
  | cons m rest ih =>
    have h1 := sum_matchCount_cons brands m rest hnd
      (hpos m (List.mem_cons_self _ _))
      (fun x hx => hpos x (List.mem_cons_of_mem _ hx))
    have h2 := ih (fun x hx => hpos x (List.mem_cons_of_mem _ hx))
    have h3 : sumCounts (m :: rest) = m.count + sumCounts rest := by
      simp [sumCounts]
    omega

/-- The per-platform numerator is non-negative. -/
theorem brandPlatformMentions_nonneg (b : String) (results : List PromptResult)
    (p : String) (hpos : ∀ r ∈ results, ∀ m ∈ r.mentions, 0 ≤ m.count) :
    0 ≤ brandPlatformMentions b results p := by
  unfold brandPlatformMentions
  apply List.sum_nonneg
  intro x hx
  obtain ⟨r, hr, hxr⟩ := List.mem_map.1 hx
  rw [← hxr]
  exact matchCountMentions_nonneg b r.mentions
    (hpos r (List.mem_filter.1 hr).1)

/-- Summed over the tracked brands, the per-platform numerators do not
exceed the per-platform denominator. -/
theorem sum_brandPlatformMentions_le (brands : List String)
    (results : List PromptResult) (p : String)
    (hnd : (brands.map pyLower).Nodup)
    (hpos : ∀ r ∈ results, ∀ m ∈ r.mentions, 0 ≤ m.count) :
    (brands.map (fun b => brandPlatformMentions b results p)).sum ≤
      platformTotalMentions results p := by
  induction results with
  | nil =>
    have hz : ((brands.map fun b =>
        brandPlatformMentions b ([] : List PromptResult) p)).sum = 0 := by
      apply List.sum_eq_zero
      intro x hx
      obtain ⟨b, _, hb⟩ := List.mem_map.1 hx
      rw [← hb]
      rfl
    rw [hz]
    simp [platformTotalMentions]
  | cons r rest ih =>
    have hco : ∀ b ∈ brands, brandPlatformMentions b (r :: rest) p =
        (if r.platform = p then matchCount b r else 0) +
          brandPlatformMentions b rest p :=
      fun b _ => brandPlatformMentions_cons b r rest p
    rw [List.map_congr_left hco, sum_map_add, platformTotalMentions_cons]
    have h2 := ih (fun x hx => hpos x (List.mem_cons_of_mem _ hx))
    by_cases hp : r.platform = p
    · have hco2 : ∀ b ∈ brands,
          (if r.platform = p then matchCount b r else 0) = matchCountMentions b r.mentions := by
        intro b _
        rw [if_pos hp]
        rfl
      rw [List.map_congr_left hco2]
      have h1 := sum_matchCount_le brands r.mentions hnd
        (hpos r (List.mem_cons_self _ _))
      rw [if_pos hp]
      omega
    · have hco2 : ∀ b ∈ brands,
          (if r.platform = p then matchCount b r else 0) = 0 := by
        intro b _
        rw [if_neg hp]
      rw [List.map_congr_left hco2]
      have hz : ((brands.map fun _ => (0 : ℤ))).sum = 0 := by
        apply List.sum_eq_zero
        intro x hx
        obtain ⟨b, _, hb⟩ := List.mem_map.1 hx
        exact hb.symm
      rw [hz, if_neg hp]
      omega

/-- Per-brand bound: the platform citation share in the breakdown computed
by `calculate_brand_metrics` is at most the unrounded percentage plus the
one-decimal rounding slack (and 0 when the platform is absent). -/
theorem platformCitationShare_bound (b : String) (results : List PromptResult)
    (all_brands : List String) (p : String)
    (hpos : ∀ r ∈ results, ∀ m ∈ r.mentions, 0 ≤ m.count) :
    platformCitationShare (calculate_brand_metrics b results all_brands) p ≤
      (brandPlatformMentions b results p : ℚ) /
        (platformTotalMentions results p : ℚ) * 100 + 1/20 := by
  have hnum0 : 0 ≤ brandPlatformMentions b results p :=
    brandPlatformMentions_nonneg b results p hpos
  have hden0 : 0 ≤ platformTotalMentions results p :=
    platformTotalMentions_nonneg results p hpos
  have hq1 : (0:ℚ) ≤ (brandPlatformMentions b results p : ℚ) := by
    exact_mod_cast hnum0
  have hq2 : (0:ℚ) ≤ (platformTotalMentions results p : ℚ) := by
    exact_mod_cast hden0
  have hrhs0 : (0:ℚ) ≤ (brandPlatformMentions b results p : ℚ) /
      (platformTotalMentions results p : ℚ) * 100 + 1/20 := by
    have := mul_nonneg (div_nonneg hq1 hq2) (by norm_num : (0:ℚ) ≤ 100)
    linarith
  unfold platformCitationShare
  simp only [calculate_brand_metrics]
  rw [lookup_map_pair]
  split_ifs with hmem
  · simp only []
    have hm : (results.foldl (brandMetricsStep b) initCalcState).mentionsBy p =
        brandPlatformMentions b results p := by
      rw [foldl_mentionsBy]
      simp [initCalcState]
    rw [hm]
    exact calculate_citation_share_le _ _
  · exact hrhs0

/-- C7: for tracked brands with pairwise distinct case-insensitive names
and non-negative mention counts (the spec's data model guarantees
`count ≥ 1`), and every mentioned brand in the tracked set, the per-platform
`citationShare` values of `calculate_brand_metrics` summed over all tracked
brands do not exceed 100 plus the one-decimal rounding slack
(1/20 per brand). -/
theorem platform_citation_share_sum (brands : List String)
    (results : List PromptResult) (platform : String)
    (hnd : (brands.map pyLower).Nodup)
    (hpos : ∀ r ∈ results, ∀ m ∈ r.mentions, 0 ≤ m.count)
    (htracked : ∀ r ∈ results, ∀ m ∈ r.mentions,
      ∃ b ∈ brands, pyLower b = pyLower m.brand) :
    (brands.map (fun b => platformCitationShare
        (calculate_brand_metrics b results brands) platform)).sum ≤
      100 + (brands.length : ℚ) * (1/20) := by
  have hstep : ∀ b ∈ brands,
      platformCitationShare (calculate_brand_metrics b results brands) platform ≤
      (brandPlatformMentions b results platform : ℚ) /
        (platformTotalMentions results platform : ℚ) * 100 + 1/20 :=
    fun b _ => platformCitationShare_bound b results brands platform hpos
  have h1 := List.sum_le_sum hstep
  have hco : ∀ b ∈ brands,
      (brandPlatformMentions b results platform : ℚ) /
        (platformTotalMentions results platform : ℚ) * 100 + 1/20 =
      (brandPlatformMentions b results platform : ℚ) *
        (100 / (platformTotalMentions results platform : ℚ)) + 1/20 := by
    intro b _
    ring
  rw [List.map_congr_left hco, sum_map_addQ, sum_map_constQ,
    sum_map_mul_rightQ, sum_map_intCast] at h1
  have hle := sum_brandPlatformMentions_le brands results platform hnd hpos
  have hD := platformTotalMentions_nonneg results platform hpos
  have hcore :
      (((brands.map (fun b => brandPlatformMentions b results platform)).sum : ℤ) : ℚ)
        * (100 / (platformTotalMentions results platform : ℚ)) ≤ 100 := by
    rcases eq_or_lt_of_le hD with hD0 | hDpos
    · rw [← hD0]
      simp
    · have hDq : (0:ℚ) < (platformTotalMentions results platform : ℚ) := by
        exact_mod_cast hDpos
      have hSq :
          (((brands.map (fun b => brandPlatformMentions b results platform)).sum : ℤ) : ℚ)
            ≤ (platformTotalMentions results platform : ℚ) := by
        exact_mod_cast hle
      have hfac : (0:ℚ) ≤ 100 / (platformTotalMentions results platform : ℚ) := by
        positivity
      calc (((brands.map (fun b => brandPlatformMentions b results platform)).sum : ℤ) : ℚ)
            * (100 / (platformTotalMentions results platform : ℚ))
          ≤ (platformTotalMentions results platform : ℚ) *
            (100 / (platformTotalMentions results platform : ℚ)) :=
            mul_le_mul_of_nonneg_right hSq hfac
        _ = 100 := by
            field_simp
  linarith

/-- Witness for `platform_citation_share_sum` at a concrete two-brand,
one-platform input. -/
theorem platform_citation_share_sum_witness :
    (["Alpha", "Beta"].map (fun b => platformCitationShare
        (calculate_brand_metrics b
          [mkResult "chatgpt"
            [⟨"Alpha", 3, 1, "", false⟩, ⟨"Beta", 1, 2, "", false⟩]
            (some "Alpha") (some "Beta")]
          ["Alpha", "Beta"]) "chatgpt")).sum ≤
      100 + ((["Alpha", "Beta"] : List String).length : ℚ) * (1/20) := by
  refine platform_citation_share_sum ["Alpha", "Beta"] _ "chatgpt"
    (by decide) ?_ ?_
  · intro r hr
    simp only [List.mem_singleton] at hr
    subst hr
    decide
  · intro r hr
    simp only [List.mem_singleton] at hr
    subst hr
    decide
